import Mathlib

/-!
# Polaris default store: the attribute-filter-to-SQL compiler

A shallow embedding of `store/defaultStore/sql.go` and the properties of the
clause text and argument list that its functions return.

Modelling conventions.

* A Go `string` is a Lean `String`.  Every byte the code inspects (`*`, `,`,
  `?`) is ASCII, so on well-formed UTF-8 text the byte-level operations of the
  source (`len`, slicing off the last byte, `strings.Split` on `","`) coincide
  with the character-level operations used here.
* A Go `map[string]string` has no iteration order of its own: a `range` loop
  visits its entries in some order.  A map is therefore given as the list of
  its entries in the order the loop visits them; the keys of a real map are
  pairwise distinct (`FilterMap.WF`).
* A `[]interface{}` is a `List Value`; a `nil` slice and an empty slice are
  both the empty list.
* `*Order` and `*Page` are `Option Order` and `Option Page`.
-/

namespace Polaris

/-! ## Data model -/

/-- Dynamic values stored in the `[]interface{}` argument list. -/
inductive Value where
  | str (s : String)
  | int (n : Int)
  | uint32 (n : Nat)
  deriving DecidableEq, Repr

/-- Constant `OwnerAttribute`. -/
def OwnerAttribute : String := "owner"

/-- Constant `And`. -/
def And : String := " and"

/-- Struct `Order`: the field name and the direction, both raw text. -/
structure Order where
  Filed : String
  Sequence : String
  deriving DecidableEq, Repr

/-- Struct `Page`: two `uint32` fields. -/
structure Page where
  Offset : Nat
  Limit : Nat
  deriving DecidableEq, Repr

/-- Entries of a `map[string]string`, in the order a `range` loop visits them. -/
abbrev FilterMap := List (String × String)

/-- Entries of a `map[string][]string`, in the order a `range` loop visits them. -/
abbrev MultiValueFilterMap := List (String × List String)

/-- Keys of a real map are pairwise distinct. -/
def FilterMap.WF (m : FilterMap) : Prop := (m.map Prod.fst).Nodup

/-- Keys of a real multi-valued map are pairwise distinct. -/
def MultiValueFilterMap.WF (m : MultiValueFilterMap) : Prop := (m.map Prod.fst).Nodup

instance (m : FilterMap) : Decidable (FilterMap.WF m) := by
  unfold FilterMap.WF; infer_instance

instance (m : MultiValueFilterMap) : Decidable (MultiValueFilterMap.WF m) := by
  unfold MultiValueFilterMap.WF; infer_instance

/-! ## Go standard library functions used by the source -/

/-- Go slice expression `s[lo:hi]` on a string. -/
def slice (s : String) (lo hi : Nat) : String :=
  String.mk ((s.data.take hi).drop lo)

/-- Go `strings.Repeat(s, count)` for a non-negative count. -/
def stringsRepeat (s : String) : Nat → String
  | 0 => ""
  | n + 1 => s ++ stringsRepeat s n

/-- Go `strings.Split(s, sep)` for a one-character separator, on the characters
of `s`; `cur` holds the characters of the piece being read, latest first. -/
def splitChars (sep : Char) : List Char → List Char → List String
  | [], cur => [String.mk cur.reverse]
  | c :: cs, cur =>
    if c = sep then String.mk cur.reverse :: splitChars sep cs []
    else splitChars sep cs (c :: cur)

/-- Go `strings.Split(s, ",")`: the pieces of `s` between commas, in order. -/
def stringsSplitComma (s : String) : List String :=
  splitChars ',' s.data []

/-- Go `strconv.ParseBool`: the parsed value and whether parsing failed
(on failure the value is `false`). -/
def ParseBool (str : String) : Bool × Bool :=
  if str = "1" ∨ str = "t" ∨ str = "T" ∨ str = "TRUE" ∨ str = "true" ∨ str = "True" then
    (true, false)
  else if str = "0" ∨ str = "f" ∨ str = "F" ∨ str = "FALSE" ∨ str = "false" ∨ str = "False" then
    (false, false)
  else
    (false, true)

/-- Number of positional placeholders `?` in a clause text. -/
def countPlaceholders (s : String) : Nat := s.data.count '?'

/-! ## The functions of `sql.go` -/

/-- Function `isWildName`: the name ends in `*`. -/
def isWildName (name : String) : Bool :=
  let length := name.length
  decide (length ≥ 1) && decide (slice name (length - 1) length = "*")

/-- Function `boolToInt`. -/
def boolToInt (v : Bool) : Int :=
  if v then 1 else 0

/-- Function `PlaceholdersN`. -/
def PlaceholdersN (size : Int) : String :=
  if size ≤ 0 then ""
  else
    let str := stringsRepeat "?," size.toNat
    slice str 0 (str.length - 1)

/-- Loop state of the filter compilers: the text so far, the arguments so far,
and the `firstIndex` flag. -/
structure LoopState where
  str : String
  args : List Value
  firstIndex : Bool
  deriving DecidableEq, Repr

/-- State of the filter compilers before the first entry is visited. -/
def LoopState.init : LoopState := ⟨"", [], true⟩

/-- One iteration of the `range` loop of `genFilterSQL`. -/
def genFilterSQLBody (st : LoopState) (entry : String × String) : LoopState :=
  let key := entry.1
  let value := entry.2
  let str := if st.firstIndex = false then st.str ++ And else st.str
  let args := st.args
  if key = OwnerAttribute ∨ key = "alias." ++ OwnerAttribute ∨ key = "business" then
    let str := str ++ (" " ++ key ++ " like ?")
    let value := "%" ++ value ++ "%"
    ⟨str, if key ≠ "host" then args ++ [Value.str value] else args, false⟩
  else if key = "name" ∧ isWildName value = true then
    let str := str ++ " name like ?"
    let value := "%" ++ slice value 0 (value.length - 1) ++ "%"
    ⟨str, if key ≠ "host" then args ++ [Value.str value] else args, false⟩
  else if key = "host" then
    let hosts := stringsSplitComma value
    let str := str ++ (" host in (" ++ PlaceholdersN (hosts.length : Int) ++ ")")
    let args := hosts.foldl (fun acc host => acc ++ [Value.str host]) args
    ⟨str, if key ≠ "host" then args ++ [Value.str value] else args, false⟩
  else if key = "managed" then
    let str := str ++ " managed = ?"
    let managed := (ParseBool value).1
    ⟨str, args ++ [Value.int (boolToInt managed)], false⟩
  else
    let str := str ++ (" " ++ key ++ "=?")
    ⟨str, if key ≠ "host" then args ++ [Value.str value] else args, false⟩

/-- Function `genFilterSQL`. -/
def genFilterSQL (filter : FilterMap) : String × List Value :=
  if filter.length = 0 then ("", [])
  else
    let st := filter.foldl genFilterSQLBody LoopState.init
    (st.str, st.args)

/-- One iteration of the `range` loop of `genServiceFilterSQL`. -/
def genServiceFilterSQLBody (st : LoopState) (entry : String × String) : LoopState :=
  let key := entry.1
  let value := entry.2
  let str := if st.firstIndex = false then st.str ++ And else st.str
  let args := st.args
  if key = OwnerAttribute then
    let str := str ++
      " (service.name, service.namespace) in (select service,namespace from owner_service_map where owner=?)"
    ⟨str, args ++ [Value.str value], false⟩
  else if key = "alias." ++ OwnerAttribute then
    let str := str ++
      " (alias.name, alias.namespace) in (select service,namespace from owner_service_map where owner=?)"
    ⟨str, args ++ [Value.str value], false⟩
  else if key = "business" then
    let str := str ++ (" " ++ key ++ " like ?")
    let value := "%" ++ value ++ "%"
    ⟨str, args ++ [Value.str value], false⟩
  else if key = "name" ∧ isWildName value = true then
    let str := str ++ " name like ?"
    let value := "%" ++ slice value 0 (value.length - 1) ++ "%"
    ⟨str, args ++ [Value.str value], false⟩
  else
    let str := str ++ (" " ++ key ++ "=?")
    ⟨str, args ++ [Value.str value], false⟩

/-- Function `genServiceFilterSQL`. -/
def genServiceFilterSQL (filter : FilterMap) : String × List Value :=
  if filter.length = 0 then ("", [])
  else
    let st := filter.foldl genServiceFilterSQLBody LoopState.init
    (st.str, st.args)

/-- One iteration of the `range` loop of `genRuleFilterSQL`. -/
def genRuleFilterSQLBody (tableName : String) (st : LoopState) (entry : String × String) :
    LoopState :=
  let key := entry.1
  let value := entry.2
  let key := if tableName ≠ "" then tableName ++ "." ++ key else key
  let str := if st.firstIndex = false then st.str ++ And else st.str
  let args := st.args
  if key = OwnerAttribute ∨ key = tableName ++ "." ++ OwnerAttribute then
    let str := str ++ (" " ++ key ++ " like ? ")
    let value := "%" ++ value ++ "%"
    ⟨str, args ++ [Value.str value], false⟩
  else
    let str := str ++ (" " ++ key ++ " = ? ")
    ⟨str, args ++ [Value.str value], false⟩

/-- Function `genRuleFilterSQL`. -/
def genRuleFilterSQL (tableName : String) (filter : FilterMap) : String × List Value :=
  if filter.length = 0 then ("", [])
  else
    let st := filter.foldl (genRuleFilterSQLBody tableName) LoopState.init
    (st.str, st.args)

/-- Function `genOrderAndPage`. -/
def genOrderAndPage (order : Option Order) (page : Option Page) : String × List Value :=
  let str := ""
  let args : List Value := []
  let str :=
    match order with
    | some o => str ++ (" order by " ++ o.Filed ++ " " ++ o.Sequence)
    | none => str
  match page with
  | some p => (str ++ " limit ?, ?", args ++ [Value.uint32 p.Offset, Value.uint32 p.Limit])
  | none => (str, args)

/-- Function `genInstanceMetadataArgs`. -/
def genInstanceMetadataArgs (metaFilter : FilterMap) : String × List Value :=
  let str := "instance.id in (select id from instance_metadata where mkey = ? and mvalue = ?)"
  let args := metaFilter.foldl (fun acc kv => (acc ++ [Value.str kv.1]) ++ [Value.str kv.2]) []
  (str, args)

/-- Function `genWhereSQLAndArgs`; `offset` and `limit` are `uint32` values. -/
def genWhereSQLAndArgs (str : String) (filter metaFilter : FilterMap) (order : Option Order)
    (offset limit : Nat) : String × List Value :=
  let baseStr := str
  let args : List Value := []
  let filterStr := (genFilterSQL filter).1
  let filterArgs := (genFilterSQL filter).2
  let conjunction := " where "
  let baseStr := if filterStr ≠ "" then baseStr ++ (" where " ++ filterStr) else baseStr
  let conjunction := if filterStr ≠ "" then " and " else conjunction
  let args := args ++ filterArgs
  let metaStr := if metaFilter.length > 0 then (genInstanceMetadataArgs metaFilter).1 else ""
  let metaArgs := if metaFilter.length > 0 then (genInstanceMetadataArgs metaFilter).2 else []
  let args := if metaFilter.length > 0 then args ++ metaArgs else args
  let baseStr := if metaFilter.length > 0 then baseStr ++ (conjunction ++ metaStr) else baseStr
  let page : Page := ⟨offset, limit⟩
  let opStr := (genOrderAndPage order (some page)).1
  let opArgs := (genOrderAndPage order (some page)).2
  (baseStr ++ opStr, args ++ opArgs)

/-- Function `genServiceAliasWhereSQLAndArgs`; `offset` and `limit` are `uint32` values. -/
def genServiceAliasWhereSQLAndArgs (str : String) (filter : FilterMap) (order : Option Order)
    (offset limit : Nat) : String × List Value :=
  let baseStr := str
  let filterStr := (genServiceFilterSQL filter).1
  let filterArgs := (genServiceFilterSQL filter).2
  let baseStr := if filterStr ≠ "" then baseStr ++ " where " else baseStr
  let page : Page := ⟨offset, limit⟩
  let opStr := (genOrderAndPage order (some page)).1
  let opArgs := (genOrderAndPage order (some page)).2
  (baseStr ++ filterStr ++ opStr, filterArgs ++ opArgs)

/-- Inner loop of `genNamespaceWhereSQLAndArgs` over the values of one key; the
state holds the text, the arguments and the `firstItem` flag. -/
def genNamespaceItemBody (index : String) (st : LoopState) (item : String) : LoopState :=
  let str := if st.firstIndex = false then st.str ++ " or " else st.str
  if index = OwnerAttribute then
    let str := str ++ "owner like ?"
    let item := "%" ++ item ++ "%"
    ⟨str, st.args ++ [Value.str item], false⟩
  else
    let str := str ++ (index ++ "=?")
    ⟨str, st.args ++ [Value.str item], false⟩

/-- Outer loop of `genNamespaceWhereSQLAndArgs` over the keys. -/
def genNamespaceKeyBody (st : LoopState) (entry : String × List String) : LoopState :=
  let index := entry.1
  let value := entry.2
  let str := if st.firstIndex = false then st.str ++ And else st.str
  let str := str ++ " ("
  let inner := value.foldl (genNamespaceItemBody index) ⟨str, st.args, true⟩
  ⟨inner.str ++ ")", inner.args, false⟩

/-- Function `genNamespaceWhereSQLAndArgs`; `offset` and `limit` are `int` values. -/
def genNamespaceWhereSQLAndArgs (str : String) (filter : MultiValueFilterMap)
    (order : Option Order) (offset limit : Int) : String × List Value :=
  let num := filter.foldl (fun n entry => n + entry.2.length) 0
  let args : List Value := []
  let st : LoopState :=
    if num > 0 then filter.foldl genNamespaceKeyBody ⟨str ++ "where", args, true⟩
    else ⟨str, args, true⟩
  let str := st.str
  let args := st.args
  let str :=
    match order with
    | some o => str ++ (" order by " ++ o.Filed ++ " " ++ o.Sequence)
    | none => str
  let str := str ++ " limit ?, ?"
  let args := args ++ [Value.int offset, Value.int limit]
  (str, args)

/-- Function `filterMetadataWithTable`. -/
def filterMetadataWithTable (table : String) (metas : FilterMap) : String × List Value :=
  let str := "(select id from " ++ table ++ " where mkey = ? and mvalue = ?)"
  let args := metas.foldl (fun acc kv => (acc ++ [Value.str kv.1]) ++ [Value.str kv.2]) []
  (str, args)

/-! ## Derived notions used to state the properties -/

/-- Text before the next predicate: the text so far, followed by the
separator unless no entry has been visited yet. -/
def LoopState.withSep (st : LoopState) : String :=
  if st.firstIndex = false then st.str ++ And else st.str

/-- Predicate text that one entry adds, read off the loop body run on the
initial state. -/
def clauseText (entry : String × String) : String :=
  (genFilterSQLBody LoopState.init entry).str

/-- Arguments that one entry adds, read off the loop body run on the initial
state. -/
def clauseArgs (entry : String × String) : List Value :=
  (genFilterSQLBody LoopState.init entry).args

/-- Text that `genOrderAndPage` adds for an optional `Order`. -/
def orderText (order : Option Order) : String :=
  match order with
  | some o => " order by " ++ o.Filed ++ " " ++ o.Sequence
  | none => ""

/-- Key that `genRuleFilterSQL` writes into the predicate: the filter key,
prefixed with the table qualifier and a dot when the qualifier is not empty. -/
def qualifiedKey (tableName key : String) : String :=
  if tableName ≠ "" then tableName ++ "." ++ key else key

/-- Number of opening parentheses in a text. -/
def countOpenParens (s : String) : Nat := s.data.count '('

/-- Two entries at the same position of two maps that may differ in their
values only: the same key, for the key `name` values that agree on being a
wildcard value (ending in `*`), for the key `host` values with the same number
of commas. -/
def sameTextShape (e1 e2 : String × String) : Prop :=
  e1.1 = e2.1
  ∧ (e1.1 = "name" → isWildName e1.2 = isWildName e2.2)
  ∧ (e1.1 = "host" → e1.2.toList.count ',' = e2.2.toList.count ',')

/-- Total number of filter values across all keys of a multi-valued map. -/
def totalValues (filter : MultiValueFilterMap) : Nat :=
  (filter.map (fun entry => entry.2.length)).sum

/-- An optional `Order` whose field and direction hold no `?`. -/
def orderHasNoPlaceholder (order : Option Order) : Prop :=
  match order with
  | some o => '?' ∉ o.Filed.toList ∧ '?' ∉ o.Sequence.toList
  | none => True

/-! ## Auxiliary facts about texts and placeholder counts -/

theorem countPlaceholders_append (a b : String) :
    countPlaceholders (a ++ b) = countPlaceholders a + countPlaceholders b := by
  simp [countPlaceholders, String.data_append, List.count_append]

theorem countPlaceholders_of_not_mem (s : String) (h : '?' ∉ s.toList) :
    countPlaceholders s = 0 := by
  simpa [countPlaceholders, List.count_eq_zero] using h

theorem stringsRepeat_succ_data (n : Nat) :
    (stringsRepeat "?," (n + 1)).data = '?' :: ',' :: (stringsRepeat "?," n).data := by
  simp [stringsRepeat, String.data_append]

theorem stringsRepeat_length (n : Nat) : (stringsRepeat "?," n).length = 2 * n := by
  induction n with
  | zero => rfl
  | succ k ih =>
    have h := stringsRepeat_succ_data k
    simp only [String.length] at ih ⊢
    rw [h]
    simp only [List.length_cons, ih]
    omega

/-- The placeholder run for one item is a single `?`. -/
theorem PlaceholdersN_one : PlaceholdersN 1 = "?" := by decide

/-- Each further item puts `?,` in front of the placeholder run. -/
theorem PlaceholdersN_succ_succ (n : Nat) :
    PlaceholdersN ((n + 2 : Nat) : Int) = "?," ++ PlaceholdersN ((n + 1 : Nat) : Int) := by
  have h1 : ¬ (((n + 2 : Nat) : Int) ≤ 0) := by omega
  have h2 : ¬ (((n + 1 : Nat) : Int) ≤ 0) := by omega
  apply String.ext
  simp only [PlaceholdersN, h1, h2, if_false, slice, Int.toNat_ofNat, stringsRepeat_length,
    String.data_append, List.drop_zero]
  rw [stringsRepeat_succ_data (n + 1)]
  have e : 2 * (n + 2) - 1 = (2 * (n + 1) - 1) + 2 := by omega
  rw [e]
  rfl

theorem countPlaceholders_PlaceholdersN (n : Nat) :
    countPlaceholders (PlaceholdersN ((n + 1 : Nat) : Int)) = n + 1 := by
  induction n with
  | zero => decide
  | succ k ih =>
    rw [PlaceholdersN_succ_succ, countPlaceholders_append, ih]
    have : countPlaceholders "?," = 1 := by decide
    omega

theorem splitChars_length (sep : Char) (cs cur : List Char) :
    (splitChars sep cs cur).length = cs.count sep + 1 := by
  induction cs generalizing cur with
  | nil => simp [splitChars]
  | cons c t ih =>
    by_cases h : c = sep
    · subst h
      simp [splitChars, ih]
    · have h2 : ¬ ((c == sep) = true) := by simpa using h
      simp [splitChars, h, ih, List.count_cons, h2]

theorem stringsSplitComma_length (s : String) :
    (stringsSplitComma s).length = s.toList.count ',' + 1 :=
  splitChars_length ',' s.data []

theorem foldl_append_singleton {α β : Type} (f : α → β) (xs : List α) (acc : List β) :
    xs.foldl (fun a x => a ++ [f x]) acc = acc ++ xs.map f := by
  induction xs generalizing acc with
  | nil => simp
  | cons x t ih => simp [ih]

/-! ## The loop of `genFilterSQL`, entry by entry -/

theorem genFilterSQLBody_eq (st : LoopState) (entry : String × String) :
    genFilterSQLBody st entry
      = ⟨st.withSep ++ clauseText entry, st.args ++ clauseArgs entry, false⟩ := by
  unfold clauseText clauseArgs genFilterSQLBody LoopState.withSep
  simp only [LoopState.init]
  split_ifs <;> simp_all [foldl_append_singleton]

theorem countPlaceholders_split (v : String) :
    countPlaceholders (PlaceholdersN ((stringsSplitComma v).length : Int))
      = (stringsSplitComma v).length := by
  rw [stringsSplitComma_length]
  exact countPlaceholders_PlaceholdersN _

/-- The predicate of one entry has as many placeholders as the entry adds
arguments, when the key has no `?`. -/
theorem clause_placeholders (entry : String × String) (hk : '?' ∉ entry.1.toList) :
    countPlaceholders (clauseText entry) = (clauseArgs entry).length := by
  have hkey : countPlaceholders entry.1 = 0 := countPlaceholders_of_not_mem _ hk
  have c0 : countPlaceholders "" = 0 := by decide
  have c1 : countPlaceholders " " = 0 := by decide
  have c2 : countPlaceholders " like ?" = 1 := by decide
  have c3 : countPlaceholders " name like ?" = 1 := by decide
  have c4 : countPlaceholders " host in (" = 0 := by decide
  have c5 : countPlaceholders ")" = 0 := by decide
  have c6 : countPlaceholders " managed = ?" = 1 := by decide
  have c7 : countPlaceholders "=?" = 1 := by decide
  have ne1 : "host" ≠ OwnerAttribute := by decide
  have ne2 : "host" ≠ "alias." ++ OwnerAttribute := by decide
  have ne3 : "host" ≠ "business" := by decide
  have ne4 : "host" ≠ "name" := by decide
  unfold clauseText clauseArgs genFilterSQLBody
  simp only [LoopState.init]
  split_ifs with h1 h2 h3 h4 h5 h6 h7 h8
  all_goals
    simp_all [countPlaceholders_append, foldl_append_singleton, countPlaceholders_split]

/-- Running the loop from any state. -/
theorem genFilterSQL_foldl_inv (entries : FilterMap) (st : LoopState)
    (hk : ∀ entry ∈ entries, '?' ∉ entry.1.toList)
    (hst : countPlaceholders st.str = st.args.length) :
    countPlaceholders (entries.foldl genFilterSQLBody st).str
      = (entries.foldl genFilterSQLBody st).args.length := by
  induction entries generalizing st with
  | nil => simpa using hst
  | cons e t ih =>
    rw [List.foldl_cons]
    apply ih
    · intro x hx
      exact hk x (List.mem_cons_of_mem _ hx)
    · rw [genFilterSQLBody_eq]
      have hAnd : countPlaceholders And = 0 := by decide
      have hsep : countPlaceholders st.withSep = st.args.length := by
        unfold LoopState.withSep
        split <;> simp [countPlaceholders_append, hAnd, hst]
      simp [countPlaceholders_append, hsep, clause_placeholders e (hk e (List.mem_cons_self _ _))]

/-- A single-entry map compiles to the predicate and arguments of its entry. -/
theorem genFilterSQL_singleton (entry : String × String) :
    genFilterSQL [entry] = (clauseText entry, clauseArgs entry) := rfl

theorem splitChars_ne_nil (sep : Char) (cs cur : List Char) : splitChars sep cs cur ≠ [] := by
  intro h
  have := splitChars_length sep cs cur
  rw [h] at this
  simp at this

theorem splitChars_intercalate (sep : Char) (cs cur : List Char) :
    List.intercalate [sep] ((splitChars sep cs cur).map String.toList) = cur.reverse ++ cs := by
  induction cs generalizing cur with
  | nil => simp [splitChars, List.intercalate]
  | cons c t ih =>
    by_cases h : c = sep
    · subst h
      have hne := splitChars_ne_nil c t []
      have ih0 := ih []
      cases hsp : splitChars c t [] with
      | nil => exact absurd hsp hne
      | cons q qs =>
        rw [hsp] at ih0
        simp only [splitChars, if_true, hsp, List.map_cons, List.intercalate,
          List.intersperse_cons₂, List.flatten_cons] at ih0 ⊢
        rw [ih0]
        simp
    · simp only [splitChars, h, if_false]
      rw [ih]
      simp

theorem splitChars_no_sep (sep : Char) (cs cur : List Char) (hcur : sep ∉ cur) :
    ∀ piece ∈ splitChars sep cs cur, sep ∉ piece.toList := by
  induction cs generalizing cur with
  | nil =>
    intro piece hp
    simp only [splitChars, List.mem_singleton] at hp
    subst hp
    simpa using hcur
  | cons c t ih =>
    intro piece hp
    by_cases h : c = sep
    · subst h
      simp only [splitChars, if_true, List.mem_cons] at hp
      rcases hp with hp | hp
      · subst hp
        simpa using hcur
      · exact ih [] (by simp) piece hp
    · simp only [splitChars, h, if_false] at hp
      refine ih (c :: cur) ?_ piece hp
      intro hm
      rcases List.mem_cons.mp hm with e | e
      · exact h e.symm
      · exact hcur e

theorem length_append_star (s : String) : (s ++ "*").length = s.length + 1 := by
  rw [String.length_append]
  rfl

theorem data_append_star (s : String) : (s ++ "*").data = s.data ++ ['*'] := by
  rw [String.data_append]

theorem slice_append_star_last (s : String) :
    slice (s ++ "*") ((s ++ "*").length - 1) (s ++ "*").length = "*" := by
  unfold slice
  rw [length_append_star, data_append_star, Nat.add_sub_cancel]
  have h1 : (s.data ++ ['*']).take (s.length + 1) = s.data ++ ['*'] :=
    List.take_of_length_le (by simp)
  have h2 : (s.data ++ ['*']).drop s.length = ['*'] := by
    rw [← String.length_data]
    exact List.drop_left _ _
  rw [h1, h2]

theorem slice_append_star_init (s : String) :
    slice (s ++ "*") 0 ((s ++ "*").length - 1) = s := by
  unfold slice
  rw [length_append_star, data_append_star, Nat.add_sub_cancel, List.drop_zero]
  have h1 : (s.data ++ ['*']).take s.length = s.data := by
    rw [← String.length_data]
    exact List.take_left _ _
  rw [h1]

theorem isWildName_append_star (s : String) : isWildName (s ++ "*") = true := by
  have h := slice_append_star_last s
  rw [length_append_star] at h
  unfold isWildName
  simp only [length_append_star, h]
  simp

theorem genServiceFilterSQLBody_eq (st : LoopState) (entry : String × String)
    (h : entry.1 ≠ "owner" ∧ entry.1 ≠ "alias.owner" ∧ entry.1 ≠ "host"
      ∧ entry.1 ≠ "managed") :
    genServiceFilterSQLBody st entry = genFilterSQLBody st entry := by
  obtain ⟨h1, h2, h3, h4⟩ := h
  have e2 : "alias." ++ "owner" = "alias.owner" := by decide
  unfold genServiceFilterSQLBody genFilterSQLBody
  simp only [OwnerAttribute, e2, h1, h2, h3, h4, false_or, if_false, ne_eq, not_false_eq_true,
    if_true]

theorem genServiceFilterSQL_foldl_eq (entries : FilterMap) (st : LoopState)
    (h : ∀ entry ∈ entries, entry.1 ≠ "owner" ∧ entry.1 ≠ "alias.owner" ∧ entry.1 ≠ "host"
      ∧ entry.1 ≠ "managed") :
    entries.foldl genServiceFilterSQLBody st = entries.foldl genFilterSQLBody st := by
  induction entries generalizing st with
  | nil => rfl
  | cons e t ih =>
    rw [List.foldl_cons, List.foldl_cons,
      genServiceFilterSQLBody_eq st e (h e (List.mem_cons_self _ _))]
    exact ih _ (fun x hx => h x (List.mem_cons_of_mem _ hx))

theorem genRuleFilterSQL_singleton (tableName : String) (entry : String × String) :
    genRuleFilterSQL tableName [entry]
      = ((genRuleFilterSQLBody tableName LoopState.init entry).str,
         (genRuleFilterSQLBody tableName LoopState.init entry).args) := rfl

theorem qualified_ne_owner (t k : String) : t ++ "." ++ k ≠ "owner" := by
  intro h
  have hd := congrArg String.data h
  rw [String.data_append, String.data_append] at hd
  have hm : '.' ∈ ("owner" : String).data := by
    rw [← hd]
    have : '.' ∈ (".": String).data := by decide
    simp [this]
  exact absurd hm (by decide)

theorem qualified_eq_iff (t k k2 : String) : t ++ "." ++ k = t ++ "." ++ k2 ↔ k = k2 := by
  constructor
  · intro h
    have hd := congrArg String.data h
    rw [String.data_append, String.data_append] at hd
    exact String.ext (List.append_cancel_left hd)
  · intro h
    rw [h]

/-- The loop invariant on the whole of `genFilterSQL`, for use by the composers. -/
theorem genFilterSQL_placeholders_eq_args_aux (filter : FilterMap)
    (hk : ∀ entry ∈ filter, '?' ∉ entry.1.toList) :
    countPlaceholders (genFilterSQL filter).1 = (genFilterSQL filter).2.length := by
  unfold genFilterSQL
  split
  · decide
  · exact genFilterSQL_foldl_inv filter LoopState.init hk (by decide)

/-! ## Claims about `genFilterSQL` and the clause composer -/

/-- C1: for every FilterMap whose keys hold no `?`, visited in any order, the
text returned by `genFilterSQL` has exactly as many `?` as the returned
argument list has elements. -/
theorem genFilterSQL_placeholders_eq_args (filter : FilterMap)
    (hk : ∀ entry ∈ filter, '?' ∉ entry.1.toList) :
    countPlaceholders (genFilterSQL filter).1 = (genFilterSQL filter).2.length := by
  unfold genFilterSQL
  by_cases hlen : filter.length = 0
  · rw [if_pos hlen]
    decide
  · rw [if_neg hlen]
    have hinit : countPlaceholders LoopState.init.str = LoopState.init.args.length := by decide
    exact genFilterSQL_foldl_inv filter LoopState.init hk hinit

/-- C1, on a map that uses every special key: owner, alias.owner, business,
a wildcard name, a host list with three items and managed, next to a plain key. -/
theorem genFilterSQL_placeholders_eq_args_witness :
    (∀ entry ∈ ([("owner", "a"), ("alias.owner", "b"), ("business", "c"), ("name", "n*"),
        ("host", "h1,h2,h3"), ("managed", "true"), ("port", "80")] : FilterMap),
        '?' ∉ entry.1.toList) ∧
    countPlaceholders (genFilterSQL [("owner", "a"), ("alias.owner", "b"), ("business", "c"),
        ("name", "n*"), ("host", "h1,h2,h3"), ("managed", "true"), ("port", "80")]).1
      = (genFilterSQL [("owner", "a"), ("alias.owner", "b"), ("business", "c"),
        ("name", "n*"), ("host", "h1,h2,h3"), ("managed", "true"), ("port", "80")]).2.length :=
  ⟨by decide, genFilterSQL_placeholders_eq_args _ (by decide)⟩

theorem genOrderAndPage_eq (order : Option Order) (page : Option Page) :
    genOrderAndPage order page
      = (orderText order ++ (match page with
            | some _ => " limit ?, ?"
            | none => ""),
         match page with
            | some p => [Value.uint32 p.Offset, Value.uint32 p.Limit]
            | none => []) := by
  cases order <;> cases page <;> simp [genOrderAndPage, orderText]

theorem metadata_args_foldl (entries : FilterMap) (acc : List Value) :
    entries.foldl (fun a kv => (a ++ [Value.str kv.1]) ++ [Value.str kv.2]) acc
      = acc ++ (entries.map (fun kv => [Value.str kv.1, Value.str kv.2])).flatten := by
  induction entries generalizing acc with
  | nil => simp
  | cons e t ih =>
    rw [List.foldl_cons, ih]
    simp

theorem genInstanceMetadataArgs_length (metaFilter : FilterMap) :
    (genInstanceMetadataArgs metaFilter).2.length = 2 * metaFilter.length := by
  unfold genInstanceMetadataArgs
  simp only [metadata_args_foldl, List.nil_append]
  induction metaFilter with
  | nil => rfl
  | cons e t ih =>
    simp only [List.map_cons, List.flatten_cons, List.length_append, ih, List.length_cons,
      List.length_nil]
    omega

/-- C3: the text returned by `genWhereSQLAndArgs` is the base string, then
`" where " ++ F` when the compiled generic filter `F` is non-empty, then for a
non-empty MetadataFilter the conjunction (`" and "` when `F` is non-empty,
`" where "` otherwise) and the metadata fragment, then the order/page fragment;
the arguments are the filter arguments, then the metadata arguments (only for
a non-empty MetadataFilter), then offset and limit as the last two. -/
theorem genWhereSQLAndArgs_composition (str : String) (filter metaFilter : FilterMap)
    (order : Option Order) (offset limit : Nat) :
    genWhereSQLAndArgs str filter metaFilter order offset limit
      = (str
          ++ (if (genFilterSQL filter).1 ≠ "" then " where " ++ (genFilterSQL filter).1 else "")
          ++ (if metaFilter ≠ [] then
                (if (genFilterSQL filter).1 ≠ "" then " and " else " where ")
                  ++ (genInstanceMetadataArgs metaFilter).1
              else "")
          ++ (genOrderAndPage order (some ⟨offset, limit⟩)).1,
         (genFilterSQL filter).2
          ++ (if metaFilter ≠ [] then (genInstanceMetadataArgs metaFilter).2 else [])
          ++ [Value.uint32 offset, Value.uint32 limit]) := by
  have hlen : metaFilter.length > 0 ↔ metaFilter ≠ [] := by
    cases metaFilter <;> simp
  unfold genWhereSQLAndArgs
  simp only [hlen, genOrderAndPage_eq, List.nil_append]
  by_cases hF : (genFilterSQL filter).1 = "" <;> by_cases hM : metaFilter = [] <;>
    simp [hF, hM, String.append_assoc]

theorem countPlaceholders_orderText (order : Option Order) (h : orderHasNoPlaceholder order) :
    countPlaceholders (orderText order) = 0 := by
  cases order with
  | none => decide
  | some o =>
    have c1 : countPlaceholders " order by " = 0 := by decide
    have c2 : countPlaceholders " " = 0 := by decide
    simp [orderText, countPlaceholders_append, c1, c2,
      countPlaceholders_of_not_mem _ h.1, countPlaceholders_of_not_mem _ h.2]

/-- With `n` metadata entries the composed text has two metadata placeholders
however large `n` is, while `2 * n` metadata arguments are returned: the
arguments outnumber the placeholders by `2 * (n - 1)`, so the two agree
exactly when the MetadataFilter has at most one entry. -/
theorem genWhereSQLAndArgs_args_excess (str : String) (filter metaFilter : FilterMap)
    (order : Option Order) (offset limit : Nat)
    (hs : '?' ∉ str.toList) (hk : ∀ entry ∈ filter, '?' ∉ entry.1.toList)
    (ho : orderHasNoPlaceholder order) :
    (genWhereSQLAndArgs str filter metaFilter order offset limit).2.length
      = countPlaceholders (genWhereSQLAndArgs str filter metaFilter order offset limit).1
        + 2 * (metaFilter.length - 1) := by
  have hF := genFilterSQL_placeholders_eq_args_aux filter hk
  have hM := genInstanceMetadataArgs_length metaFilter
  have c1 : countPlaceholders " where " = 0 := by decide
  have c2 : countPlaceholders " and " = 0 := by decide
  have c3 : countPlaceholders " limit ?, ?" = 2 := by decide
  have c4 : countPlaceholders "" = 0 := by decide
  have c5 : countPlaceholders (genInstanceMetadataArgs metaFilter).1 = 2 := by
    show countPlaceholders
      "instance.id in (select id from instance_metadata where mkey = ? and mvalue = ?)" = 2
    decide
  have hS := countPlaceholders_of_not_mem _ hs
  have hO := countPlaceholders_orderText _ ho
  rw [genWhereSQLAndArgs_composition, genOrderAndPage_eq]
  simp only [List.length_append, List.length_cons, List.length_nil, countPlaceholders_append,
    ← hF, hS, hO, c3]
  by_cases hE : (genFilterSQL filter).1 = "" <;> by_cases hN : metaFilter = []
  · simp [hE, hN, c4]
  · have hpos : 0 < metaFilter.length := List.length_pos.mpr hN
    simp only [hE, hN, c1, c4, c5, hM, ne_eq, not_true_eq_false, not_false_eq_true, if_true,
      if_false, countPlaceholders_append]
    omega
  · simp [hE, hN, c1, c4, countPlaceholders_append]
  · have hpos : 0 < metaFilter.length := List.length_pos.mpr hN
    simp only [hE, hN, c1, c2, c4, c5, hM, ne_eq, not_true_eq_false, not_false_eq_true, if_true,
      if_false, countPlaceholders_append]
    omega

/-- C2: on a MetadataFilter with the two entries `k1: v1` and `k2: v2` (empty
FilterMap, no Order), `genWhereSQLAndArgs` returns a text with four
placeholders and six arguments. -/
theorem genWhereSQLAndArgs_two_metadata_entries :
    genWhereSQLAndArgs "select * from instance" [] [("k1", "v1"), ("k2", "v2")] none 0 10
      = ("select * from instance where instance.id in " ++
          "(select id from instance_metadata where mkey = ? and mvalue = ?) limit ?, ?",
         [Value.str "k1", Value.str "v1", Value.str "k2", Value.str "v2",
          Value.uint32 0, Value.uint32 10])
    ∧ countPlaceholders
        (genWhereSQLAndArgs "select * from instance" [] [("k1", "v1"), ("k2", "v2")] none 0 10).1
      = 4
    ∧ (genWhereSQLAndArgs "select * from instance" [] [("k1", "v1"), ("k2", "v2")] none 0 10).2.length
      = 6 := by
  refine ⟨by decide, by decide, by decide⟩

/-- C4: on the single-entry map `host: v`, `genFilterSQL` returns the text
`" host in (" ++ PlaceholdersN n ++ ")"` and as arguments the `n` pieces of `v`
split on `,`, in order and unmodified: the pieces joined with `,` give back
`v`, none holds a comma, and `n` is the number of commas in `v` plus one, so
the placeholder run is never empty; `host = "a,b,c"` gives `" host in (?,?,?)"`
with arguments `a`, `b`, `c`. -/
theorem genFilterSQL_host (v : String) :
    genFilterSQL [("host", v)]
      = (" host in (" ++ PlaceholdersN ((stringsSplitComma v).length : Int) ++ ")",
         (stringsSplitComma v).map Value.str)
    ∧ (stringsSplitComma v).length = v.toList.count ',' + 1
    ∧ List.intercalate [','] ((stringsSplitComma v).map String.toList) = v.toList
    ∧ (∀ piece ∈ stringsSplitComma v, ',' ∉ piece.toList)
    ∧ countPlaceholders (PlaceholdersN ((stringsSplitComma v).length : Int))
        = v.toList.count ',' + 1
    ∧ PlaceholdersN ((stringsSplitComma v).length : Int) ≠ ""
    ∧ genFilterSQL [("host", "a,b,c")]
        = (" host in (?,?,?)", [Value.str "a", Value.str "b", Value.str "c"]) := by
  have hcount := countPlaceholders_split v
  rw [stringsSplitComma_length] at hcount
  refine ⟨?_, stringsSplitComma_length v, ?_, ?_, ?_, ?_, by decide⟩
  · rw [genFilterSQL_singleton]
    simp [clauseText, clauseArgs, genFilterSQLBody, LoopState.init, OwnerAttribute,
      foldl_append_singleton, String.append_assoc]
  · simpa using splitChars_intercalate ',' v.data []
  · exact splitChars_no_sep ',' v.data [] (by simp)
  · rw [stringsSplitComma_length]
    exact hcount
  · intro hempty
    rw [stringsSplitComma_length] at hempty
    rw [hempty] at hcount
    have c0 : countPlaceholders "" = 0 := by decide
    omega

/-- C5: on the single-entry map `name: s ++ "*"`, `genFilterSQL` returns the
text `" name like ?"` and the single argument `"%" ++ s ++ "%"`: only the one
trailing `*` is stripped; `name = "abc*"` gives the argument `%abc%`. -/
theorem genFilterSQL_wild_name (s : String) :
    genFilterSQL [("name", s ++ "*")] = (" name like ?", [Value.str ("%" ++ s ++ "%")])
    ∧ genFilterSQL [("name", "abc*")] = (" name like ?", [Value.str "%abc%"])
    ∧ genFilterSQL [("name", "ab**")] = (" name like ?", [Value.str "%ab*%"]) := by
  refine ⟨?_, by decide, by decide⟩
  rw [genFilterSQL_singleton]
  have h := isWildName_append_star s
  have h2 := slice_append_star_init s
  simp only [clauseText, clauseArgs, genFilterSQLBody, LoopState.init, OwnerAttribute, h, h2]
  simp

/-- C6: on the single-entry map `managed: v`, `genFilterSQL` returns the text
`" managed = ?"` with exactly one argument, the integer 1 when `v` is one of
`1`, `t`, `T`, `TRUE`, `true`, `True` and the integer 0 for every other `v`
(`notabool` included); the string `v` itself is not among the arguments. -/
theorem genFilterSQL_managed (v : String) :
    genFilterSQL [("managed", v)]
      = (" managed = ?",
         [Value.int (if v = "1" ∨ v = "t" ∨ v = "T" ∨ v = "TRUE" ∨ v = "true" ∨ v = "True"
            then 1 else 0)])
    ∧ Value.str v ∉ (genFilterSQL [("managed", v)]).2
    ∧ genFilterSQL [("managed", "true")] = (" managed = ?", [Value.int 1])
    ∧ genFilterSQL [("managed", "notabool")] = (" managed = ?", [Value.int 0]) := by
  have h : genFilterSQL [("managed", v)]
      = (" managed = ?",
         [Value.int (if v = "1" ∨ v = "t" ∨ v = "T" ∨ v = "TRUE" ∨ v = "true" ∨ v = "True"
            then 1 else 0)]) := by
    rw [genFilterSQL_singleton]
    by_cases hv : v = "1" ∨ v = "t" ∨ v = "T" ∨ v = "TRUE" ∨ v = "true" ∨ v = "True"
    · simp [clauseText, clauseArgs, genFilterSQLBody, LoopState.init, OwnerAttribute,
        ParseBool, boolToInt, hv]
    · simp only [clauseText, clauseArgs, genFilterSQLBody, LoopState.init, OwnerAttribute,
        ParseBool, boolToInt, hv, if_false]
      split_ifs <;> simp_all
  refine ⟨h, ?_, by decide, by decide⟩
  rw [h]
  simp

/-- C7: `genOrderAndPage` returns the order-by text when an Order is present,
followed by `" limit ?, ?"` when a Page is present, and the arguments are
offset then limit when a Page is present and none otherwise. -/
theorem genOrderAndPage_spec (order : Option Order) (page : Option Page) :
    genOrderAndPage order page
      = ((match order with
            | some o => " order by " ++ o.Filed ++ " " ++ o.Sequence
            | none => "")
          ++ (match page with
            | some _ => " limit ?, ?"
            | none => ""),
         match page with
            | some p => [Value.uint32 p.Offset, Value.uint32 p.Limit]
            | none => [])
    ∧ genOrderAndPage (some ⟨"ctime", "desc"⟩) (some ⟨5, 10⟩)
      = (" order by ctime desc limit ?, ?", [Value.uint32 5, Value.uint32 10]) := by
  refine ⟨?_, by decide⟩
  cases order <;> cases page <;> simp [genOrderAndPage]

/-! ## Claims about the namespace, rule and service-alias compilers -/

/-- C8: on the map visited as `name: ["a"]`, `owner: []`, the key with the
empty value list still adds the separator and an empty group: the text reads
`where (name=?) and ()`, with two parenthesized groups for one key with a
non-empty value list. -/
theorem genNamespaceWhereSQLAndArgs_empty_value_list :
    genNamespaceWhereSQLAndArgs "select * from namespace " [("name", ["a"]), ("owner", [])]
        none 0 10
      = ("select * from namespace where (name=?) and () limit ?, ?",
         [Value.str "a", Value.int 0, Value.int 10])
    ∧ countOpenParens (genNamespaceWhereSQLAndArgs "" [("name", ["a"]), ("owner", [])]
        none 0 10).1 = 2
    ∧ (([("name", ["a"]), ("owner", [])] : MultiValueFilterMap).filter
        (fun entry => decide (entry.2 ≠ []))).length = 1 := by
  refine ⟨by decide, by decide, by decide⟩

/-- C9, as stated, fails at the empty table qualifier with the key `.owner`:
that key is not the key `owner`, yet it gets a LIKE predicate and the
`%`-wrapped value, because the loop compares the key with
`tableName ++ ".owner"` whatever the qualifier is. -/
theorem genRuleFilterSQL_dot_owner_unqualified :
    genRuleFilterSQL "" [(".owner", "v")] = (" .owner like ? ", [Value.str "%v%"])
    ∧ (".owner" : String) ≠ "owner"
    ∧ genRuleFilterSQL "" [(".owner", "v")] ≠ (" .owner = ? ", [Value.str "v"]) := by
  refine ⟨by decide, by decide, by decide⟩

/-- C9, amended: for every table qualifier `t` and every single-entry
FilterMap `k: v`, other than the empty qualifier together with the key
`.owner`, `genRuleFilterSQL` emits a LIKE predicate with the argument
`"%" ++ v ++ "%"` exactly when `k` is the key `owner`, and for every other key
an equality predicate with the argument `v` unmodified; in both cases the
predicate is on the key prefixed with `t.` when `t` is not empty. -/
theorem genRuleFilterSQL_single_entry (t k v : String) (h : t ≠ "" ∨ k ≠ ".owner") :
    genRuleFilterSQL t [(k, v)]
      = if k = "owner" then
          (" " ++ qualifiedKey t k ++ " like ? ", [Value.str ("%" ++ v ++ "%")])
        else
          (" " ++ qualifiedKey t k ++ " = ? ", [Value.str v]) := by
  rw [genRuleFilterSQL_singleton]
  unfold genRuleFilterSQLBody qualifiedKey
  by_cases ht : t = ""
  · subst ht
    have hk : k ≠ ".owner" := by
      rcases h with h | h
      · exact absurd rfl h
      · exact h
    have e : ("" : String) ++ "." ++ OwnerAttribute = ".owner" := by decide
    by_cases ho : k = "owner"
    · subst ho
      simp [LoopState.init, OwnerAttribute]
    · simp [LoopState.init, OwnerAttribute, ho, hk]
  · have h1 := qualified_ne_owner t k
    have h2 := qualified_eq_iff t k "owner"
    by_cases ho : k = "owner"
    · subst ho
      simp [LoopState.init, OwnerAttribute, ht]
    · simp [LoopState.init, OwnerAttribute, ht, h1, h2, ho]

/-- C9, amended, on the empty qualifier with a plain key and with `owner`, and
on a qualifier with `owner` and with the key `.owner`. -/
theorem genRuleFilterSQL_single_entry_witness :
    ((("" : String) ≠ "") ∨ (("namespace" : String) ≠ ".owner"))
    ∧ genRuleFilterSQL "" [("namespace", "default")]
      = (" namespace = ? ", [Value.str "default"])
    ∧ genRuleFilterSQL "" [("owner", "bob")] = (" owner like ? ", [Value.str "%bob%"])
    ∧ genRuleFilterSQL "rule" [("owner", "bob")] = (" rule.owner like ? ", [Value.str "%bob%"])
    ∧ genRuleFilterSQL "rule" [(".owner", "bob")] = (" rule..owner = ? ", [Value.str "bob"]) :=
  ⟨by decide,
   (genRuleFilterSQL_single_entry "" "namespace" "default" (by decide)).trans (by decide),
   (genRuleFilterSQL_single_entry "" "owner" "bob" (by decide)).trans (by decide),
   (genRuleFilterSQL_single_entry "rule" "owner" "bob" (by decide)).trans (by decide),
   (genRuleFilterSQL_single_entry "rule" ".owner" "bob" (by decide)).trans (by decide)⟩

/-- C10, as stated, fails on the keys `host` and `managed`, neither of which is
an ownership key: the generic compiler has a branch for each, the service
compiler has none and falls through to plain equality. -/
theorem genServiceFilterSQL_host_managed_differ :
    (∀ entry ∈ ([("host", "a,b")] : FilterMap), entry.1 ≠ "owner" ∧ entry.1 ≠ "alias.owner")
    ∧ genServiceFilterSQL [("host", "a,b")] = (" host=?", [Value.str "a,b"])
    ∧ genFilterSQL [("host", "a,b")] = (" host in (?,?)", [Value.str "a", Value.str "b"])
    ∧ genServiceFilterSQL [("host", "a,b")] ≠ genFilterSQL [("host", "a,b")]
    ∧ genServiceFilterSQL [("managed", "true")] = (" managed=?", [Value.str "true"])
    ∧ genFilterSQL [("managed", "true")] = (" managed = ?", [Value.int 1])
    ∧ genServiceFilterSQL [("managed", "true")] ≠ genFilterSQL [("managed", "true")] := by
  refine ⟨by decide, by decide, by decide, by decide, by decide, by decide, by decide⟩

/-- C10, amended: for every FilterMap none of whose keys is `owner`,
`alias.owner`, `host` or `managed`, `genServiceFilterSQL` returns the same text
and the same arguments as `genFilterSQL` on the same entries in the same order. -/
theorem genServiceFilterSQL_eq_genFilterSQL (filter : FilterMap)
    (h : ∀ entry ∈ filter, entry.1 ≠ "owner" ∧ entry.1 ≠ "alias.owner" ∧ entry.1 ≠ "host"
      ∧ entry.1 ≠ "managed") :
    genServiceFilterSQL filter = genFilterSQL filter := by
  unfold genServiceFilterSQL genFilterSQL
  rw [genServiceFilterSQL_foldl_eq filter LoopState.init h]

/-- C10, amended, on a map with `business`, a wildcard `name` and a plain key. -/
theorem genServiceFilterSQL_eq_genFilterSQL_witness :
    (∀ entry ∈ ([("business", "b"), ("name", "n*"), ("port", "80")] : FilterMap),
        entry.1 ≠ "owner" ∧ entry.1 ≠ "alias.owner" ∧ entry.1 ≠ "host" ∧ entry.1 ≠ "managed")
    ∧ genServiceFilterSQL [("business", "b"), ("name", "n*"), ("port", "80")]
      = genFilterSQL [("business", "b"), ("name", "n*"), ("port", "80")] :=
  ⟨by decide, genServiceFilterSQL_eq_genFilterSQL _ (by decide)⟩

/-! ## Per-key predicates of the generic and the service compilers -/

/-- C12: for a key `k` among `owner`, `alias.owner` and `business` and every
value `v`, `genFilterSQL` on the single-entry map `k: v` returns the text
`" " ++ k ++ " like ?"` and the single argument `"%" ++ v ++ "%"`. -/
theorem genFilterSQL_like_keys (k v : String)
    (hk : k = "owner" ∨ k = "alias.owner" ∨ k = "business") :
    genFilterSQL [(k, v)] = (" " ++ k ++ " like ?", [Value.str ("%" ++ v ++ "%")]) := by
  rw [genFilterSQL_singleton]
  rcases hk with hk | hk | hk <;> subst hk <;>
    simp [clauseText, clauseArgs, genFilterSQLBody, LoopState.init, OwnerAttribute]

/-- C12, on the key `alias.owner` with the value `bob`. -/
theorem genFilterSQL_like_keys_witness :
    (("alias.owner" : String) = "owner" ∨ ("alias.owner" : String) = "alias.owner"
      ∨ ("alias.owner" : String) = "business")
    ∧ genFilterSQL [("alias.owner", "bob")]
      = (" " ++ "alias.owner" ++ " like ?", [Value.str ("%" ++ "bob" ++ "%")]) :=
  ⟨by decide, genFilterSQL_like_keys "alias.owner" "bob" (by decide)⟩

/-- C13: for a key `k` that is none of `owner`, `alias.owner`, `business`,
`host`, `managed`, and a value `v` that is not a wildcard value of the key
`name`, `genFilterSQL` on the single-entry map `k: v` returns the equality
predicate `" " ++ k ++ "=?"` and the single argument `v`, unmodified. -/
theorem genFilterSQL_default_equality (k v : String)
    (hk : k ≠ "owner" ∧ k ≠ "alias.owner" ∧ k ≠ "business" ∧ k ≠ "host" ∧ k ≠ "managed")
    (hw : ¬ (k = "name" ∧ isWildName v = true)) :
    genFilterSQL [(k, v)] = (" " ++ k ++ "=?", [Value.str v]) := by
  obtain ⟨h1, h2, h3, h4, h5⟩ := hk
  have e2 : "alias." ++ "owner" = "alias.owner" := by decide
  rw [genFilterSQL_singleton]
  simp only [clauseText, clauseArgs, genFilterSQLBody, LoopState.init, OwnerAttribute, e2,
    h1, h2, h3, h4, h5, hw, or_self, if_false, ne_eq, not_false_eq_true, if_true,
    Bool.true_eq_false, List.nil_append]
  simp

/-- C13, on an unknown key and on a `name` whose value has no trailing `*`. -/
theorem genFilterSQL_default_equality_witness :
    genFilterSQL [("port", "80*")] = (" port=?", [Value.str "80*"])
    ∧ genFilterSQL [("name", "a*b")] = (" name=?", [Value.str "a*b"]) :=
  ⟨genFilterSQL_default_equality "port" "80*" (by decide) (by decide),
   genFilterSQL_default_equality "name" "a*b" (by decide) (by decide)⟩

/-- C15: for the empty FilterMap, `genFilterSQL`, `genServiceFilterSQL` and
`genRuleFilterSQL` (for every table qualifier) return the empty text and no
arguments. -/
theorem empty_filter_compiles_to_nothing (tableName : String) :
    genFilterSQL [] = ("", [])
    ∧ genServiceFilterSQL [] = ("", [])
    ∧ genRuleFilterSQL tableName [] = ("", []) :=
  ⟨rfl, rfl, rfl⟩

/-- C18: for every value `v`, `genServiceFilterSQL` on `owner: v` and on
`alias.owner: v` returns the subquery predicate through `owner_service_map`
on the service columns, respectively the alias columns, with the single
argument `v`, unmodified. -/
theorem genServiceFilterSQL_owner_keys (v : String) :
    genServiceFilterSQL [("owner", v)]
      = (" (service.name, service.namespace) in " ++
          "(select service,namespace from owner_service_map where owner=?)",
         [Value.str v])
    ∧ genServiceFilterSQL [("alias.owner", v)]
      = (" (alias.name, alias.namespace) in " ++
          "(select service,namespace from owner_service_map where owner=?)",
         [Value.str v])
    ∧ genFilterSQL [("owner", v)] = (" owner like ?", [Value.str ("%" ++ v ++ "%")]) := by
  refine ⟨?_, ?_, ?_⟩
  · simp [genServiceFilterSQL, genServiceFilterSQLBody, LoopState.init, OwnerAttribute]
  · simp [genServiceFilterSQL, genServiceFilterSQLBody, LoopState.init, OwnerAttribute]
  · rw [genFilterSQL_singleton]
    simp [clauseText, clauseArgs, genFilterSQLBody, LoopState.init, OwnerAttribute]

/-! ## The placeholder generator and the metadata subquery builder -/

/-- A value is a wildcard value exactly when it is some text followed by `*`. -/
theorem isWildName_iff (v : String) : isWildName v = true ↔ ∃ s : String, v = s ++ "*" := by
  constructor
  · intro h
    unfold isWildName at h
    simp only [Bool.and_eq_true, decide_eq_true_eq] at h
    obtain ⟨hlen, hsl⟩ := h
    refine ⟨String.mk (v.data.take (v.length - 1)), ?_⟩
    apply String.ext
    have hd := congrArg String.data hsl
    simp only [slice] at hd
    rw [List.take_of_length_le (by simp)] at hd
    show v.data = v.data.take (v.length - 1) ++ ['*']
    rw [← hd]
    exact (List.take_append_drop _ _).symm
  · rintro ⟨s, rfl⟩
    exact isWildName_append_star s

theorem PlaceholdersN_data (n : Nat) :
    (PlaceholdersN ((n + 1 : Nat) : Int)).data
      = List.intersperse ',' (List.replicate (n + 1) '?') := by
  induction n with
  | zero => decide
  | succ k ih =>
    rw [PlaceholdersN_succ_succ, String.data_append, ih]
    rfl

theorem PlaceholdersN_length (n : Nat) :
    (PlaceholdersN ((n + 1 : Nat) : Int)).length = 2 * (n + 1) - 1 := by
  induction n with
  | zero => decide
  | succ k ih =>
    rw [PlaceholdersN_succ_succ, String.length_append, ih]
    have : ("?," : String).length = 2 := by decide
    omega

theorem PlaceholdersN_commas (n : Nat) :
    (PlaceholdersN ((n + 1 : Nat) : Int)).toList.count ',' = n := by
  induction n with
  | zero => decide
  | succ k ih =>
    rw [PlaceholdersN_succ_succ]
    show (("?," : String) ++ PlaceholdersN ((k + 1 : Nat) : Int)).data.count ',' = k + 1
    rw [String.data_append, List.count_append]
    have h2 : (PlaceholdersN ((k + 1 : Nat) : Int)).data.count ',' = k := ih
    have : ("?," : String).data.count ',' = 1 := by decide
    omega

theorem PlaceholdersN_ends (n : Nat) :
    (PlaceholdersN ((n + 1 : Nat) : Int)).toList.head? = some '?'
    ∧ (PlaceholdersN ((n + 1 : Nat) : Int)).toList.getLast? = some '?' := by
  induction n with
  | zero => decide
  | succ k ih =>
    rw [PlaceholdersN_succ_succ]
    show (("?," : String) ++ PlaceholdersN ((k + 1 : Nat) : Int)).data.head? = some '?'
      ∧ (("?," : String) ++ PlaceholdersN ((k + 1 : Nat) : Int)).data.getLast? = some '?'
    rw [String.data_append]
    have hl : (PlaceholdersN ((k + 1 : Nat) : Int)).data.getLast? = some '?' := ih.2
    have hne : (PlaceholdersN ((k + 1 : Nat) : Int)).data ≠ [] := by
      intro h0
      rw [h0] at hl
      simp at hl
    refine ⟨rfl, ?_⟩
    rw [List.getLast?_append_of_ne_nil _ hne]
    exact hl

/-- C14: for every integer `N`, `PlaceholdersN N` is the empty string when
`N ≤ 0`; when `N > 0` it is `N` characters `?` with a comma between each two
neighbours: `N` placeholders, `N - 1` commas, length `2N - 1`, first and last
character `?`; `PlaceholdersN 3 = "?,?,?"`. -/
theorem PlaceholdersN_spec (N : Int) :
    PlaceholdersN N
      = (if N ≤ 0 then "" else String.mk (List.intersperse ',' (List.replicate N.toNat '?')))
    ∧ (PlaceholdersN N).length = (if N ≤ 0 then 0 else 2 * N.toNat - 1)
    ∧ countPlaceholders (PlaceholdersN N) = N.toNat
    ∧ (PlaceholdersN N).toList.count ',' = N.toNat - 1
    ∧ (if N ≤ 0 then (PlaceholdersN N).toList = []
        else (PlaceholdersN N).toList.head? = some '?'
          ∧ (PlaceholdersN N).toList.getLast? = some '?')
    ∧ PlaceholdersN 3 = "?,?,?" ∧ PlaceholdersN 0 = "" ∧ PlaceholdersN (-2) = "" := by
  by_cases hN : N ≤ 0
  · have h0 : PlaceholdersN N = "" := by simp [PlaceholdersN, hN]
    have ht : N.toNat = 0 := Int.toNat_eq_zero.mpr hN
    rw [h0, ht, if_pos hN, if_pos hN, if_pos hN]
    refine ⟨rfl, by decide, by decide, by decide, by decide, by decide, by decide, by decide⟩
  · obtain ⟨n, hn⟩ : ∃ n : Nat, N = ((n + 1 : Nat) : Int) := ⟨N.toNat - 1, by omega⟩
    subst hn
    simp only [hN, if_false, Int.toNat_ofNat]
    refine ⟨?_, PlaceholdersN_length n, countPlaceholders_PlaceholdersN n, ?_, PlaceholdersN_ends n,
      by decide, by decide, by decide⟩
    · apply String.ext
      exact PlaceholdersN_data n
    · rw [PlaceholdersN_commas]
      omega

theorem filterMetadataWithTable_args (table : String) (metas : FilterMap) :
    (filterMetadataWithTable table metas).2
      = (metas.map (fun kv => [Value.str kv.1, Value.str kv.2])).flatten := by
  unfold filterMetadataWithTable
  simp only [metadata_args_foldl, List.nil_append]

theorem pairs_flatten_length (metas : FilterMap) :
    ((metas.map (fun kv => [Value.str kv.1, Value.str kv.2])).flatten).length
      = 2 * metas.length := by
  induction metas with
  | nil => rfl
  | cons e t ih =>
    simp only [List.map_cons, List.flatten_cons, List.length_append, ih, List.length_cons,
      List.length_nil]
    omega

/-- C19: for every table name and every MetadataFilter with `n` entries,
`filterMetadataWithTable` returns the fixed text
`"(select id from " ++ table ++ " where mkey = ? and mvalue = ?)"` and the flat
argument list of length `2n` that holds, entry by entry in visiting order, the
key followed by the value; for a table name without `?` the text has two
placeholders whatever `n` is, so placeholders and arguments agree exactly when
`n = 1`. -/
theorem filterMetadataWithTable_spec (table : String) (metas : FilterMap) :
    (filterMetadataWithTable table metas).1
      = "(select id from " ++ table ++ " where mkey = ? and mvalue = ?)"
    ∧ (filterMetadataWithTable table metas).2
      = (metas.map (fun kv => [Value.str kv.1, Value.str kv.2])).flatten
    ∧ (filterMetadataWithTable table metas).2.length = 2 * metas.length
    ∧ ('?' ∉ table.toList →
        countPlaceholders (filterMetadataWithTable table metas).1 = 2
        ∧ (countPlaceholders (filterMetadataWithTable table metas).1
            = (filterMetadataWithTable table metas).2.length ↔ metas.length = 1)) := by
  have hargs := filterMetadataWithTable_args table metas
  have hlen : (filterMetadataWithTable table metas).2.length = 2 * metas.length := by
    rw [hargs]
    exact pairs_flatten_length metas
  refine ⟨rfl, hargs, hlen, ?_⟩
  intro ht
  have c1 : countPlaceholders "(select id from " = 0 := by decide
  have c2 : countPlaceholders " where mkey = ? and mvalue = ?)" = 2 := by decide
  have hcount : countPlaceholders (filterMetadataWithTable table metas).1 = 2 := by
    show countPlaceholders ("(select id from " ++ table ++ " where mkey = ? and mvalue = ?)") = 2
    rw [countPlaceholders_append, countPlaceholders_append, c1, c2,
      countPlaceholders_of_not_mem _ ht]
  refine ⟨hcount, ?_⟩
  rw [hcount, hlen]
  omega

/-- C19, on the table `instance_metadata`: one entry gives two placeholders
and two arguments, two entries give two placeholders and four arguments. -/
theorem filterMetadataWithTable_spec_witness :
    '?' ∉ ("instance_metadata" : String).toList
    ∧ filterMetadataWithTable "instance_metadata" [("k1", "v1"), ("k2", "v2")]
      = ("(select id from instance_metadata where mkey = ? and mvalue = ?)",
         [Value.str "k1", Value.str "v1", Value.str "k2", Value.str "v2"])
    ∧ countPlaceholders
        (filterMetadataWithTable "instance_metadata" [("k1", "v1"), ("k2", "v2")]).1 = 2
    ∧ countPlaceholders (filterMetadataWithTable "instance_metadata" [("k1", "v1")]).1
      = (filterMetadataWithTable "instance_metadata" [("k1", "v1")]).2.length :=
  ⟨by decide, by decide,
   ((filterMetadataWithTable_spec "instance_metadata" [("k1", "v1"), ("k2", "v2")]).2.2.2
      (by decide)).1,
   ((filterMetadataWithTable_spec "instance_metadata" [("k1", "v1")]).2.2.2
      (by decide)).2.mpr rfl⟩

/-! ## The generic compiler as a join of per-entry predicates -/

theorem genFilterSQLBody_init (entry : String × String) :
    genFilterSQLBody LoopState.init entry = ⟨clauseText entry, clauseArgs entry, false⟩ := by
  have h := genFilterSQLBody_eq LoopState.init entry
  have hf : (genFilterSQLBody LoopState.init entry).firstIndex = false := by
    rw [h]
  show (⟨(genFilterSQLBody LoopState.init entry).str, (genFilterSQLBody LoopState.init entry).args,
    (genFilterSQLBody LoopState.init entry).firstIndex⟩ : LoopState) = _
  rw [hf]
  rfl

/-- After the first entry, every further entry appends the separator and its
predicate to the text, and its arguments to the argument list. -/
theorem genFilterSQL_foldl_go (entries : FilterMap) (st : LoopState)
    (h : st.firstIndex = false) :
    entries.foldl genFilterSQLBody st
      = ⟨String.intercalate.go st.str And (entries.map clauseText),
         st.args ++ (entries.map clauseArgs).flatten, false⟩ := by
  induction entries generalizing st with
  | nil =>
    cases st
    simp only [List.foldl_nil, List.map_nil, List.flatten_nil, List.append_nil,
      String.intercalate.go]
    simp only at h
    rw [h]
  | cons e t ih =>
    rw [List.foldl_cons, genFilterSQLBody_eq, ih _ rfl]
    simp only [LoopState.withSep, h, if_true, List.map_cons, List.flatten_cons,
      String.intercalate.go, List.append_assoc]

/-- Closed form of `genFilterSQL`: the per-entry predicates joined with the
separator, and the per-entry arguments one after the other, both in the order
the entries are visited. -/
theorem genFilterSQL_eq_intercalate (filter : FilterMap) :
    genFilterSQL filter
      = (String.intercalate And (filter.map clauseText), (filter.map clauseArgs).flatten) := by
  cases filter with
  | nil => rfl
  | cons e t =>
    unfold genFilterSQL
    simp only [List.length_cons, Nat.add_one_ne_zero, if_false, List.foldl_cons]
    rw [genFilterSQLBody_init, genFilterSQL_foldl_go _ _ rfl]
    simp only [List.map_cons, List.flatten_cons, String.intercalate]

theorem clauseText_congr (e1 e2 : String × String) (h : sameTextShape e1 e2) :
    clauseText e1 = clauseText e2 := by
  obtain ⟨k1, v1⟩ := e1
  obtain ⟨k2, v2⟩ := e2
  obtain ⟨hk, hname, hhost⟩ := h
  simp only at hk hname hhost
  subst hk
  unfold clauseText genFilterSQLBody
  simp only [LoopState.init]
  by_cases h1 : k1 = OwnerAttribute ∨ k1 = "alias." ++ OwnerAttribute ∨ k1 = "business"
  · simp only [h1, if_true]
  · simp only [h1, if_false]
    by_cases h2 : k1 = "name"
    · have hw := hname h2
      subst h2
      rw [hw]
      cases isWildName v2 <;> simp
    · simp only [h2, false_and, if_false]
      by_cases h3 : k1 = "host"
      · have hc := hhost h3
        simp only [h3, if_true, stringsSplitComma_length, hc]
      · simp only [h3, if_false]
        by_cases h4 : k1 = "managed"
        · simp only [h4, if_true]
        · simp only [h4, if_false]

theorem map_clauseText_congr (m1 m2 : FilterMap) (h : List.Forall₂ sameTextShape m1 m2) :
    m1.map clauseText = m2.map clauseText := by
  induction h with
  | nil => rfl
  | cons hab _ ih =>
    rw [List.map_cons, List.map_cons, ih, clauseText_congr _ _ hab]

/-- C11: two FilterMaps with the same keys visited in the same order, whose
`name` values agree on ending in `*` and whose `host` values have the same
number of commas, compile to the same text: values reach only the argument
list.  For a key other than `name` and `host` the text of a single-entry map
is the same for all values. -/
theorem genFilterSQL_text_value_independent (m1 m2 : FilterMap)
    (h : List.Forall₂ sameTextShape m1 m2) :
    (genFilterSQL m1).1 = (genFilterSQL m2).1
    ∧ ∀ k v1 v2 : String, k ≠ "name" → k ≠ "host" →
        (genFilterSQL [(k, v1)]).1 = (genFilterSQL [(k, v2)]).1 := by
  constructor
  · rw [genFilterSQL_eq_intercalate, genFilterSQL_eq_intercalate, map_clauseText_congr m1 m2 h]
  · intro k v1 v2 hn hh
    rw [genFilterSQL_singleton, genFilterSQL_singleton]
    exact clauseText_congr _ _ ⟨rfl, fun e => absurd e hn, fun e => absurd e hh⟩

/-- C11, on two maps with different values for every key: the texts agree
and the argument lists differ. -/
theorem genFilterSQL_text_value_independent_witness :
    (genFilterSQL [("owner", "alice"), ("name", "web*"), ("host", "h1,h2"),
        ("managed", "true"), ("port", "80")]).1
      = (genFilterSQL [("owner", "? or 1=1"), ("name", "?*"), ("host", "?,?"),
        ("managed", "no"), ("port", "?")]).1
    ∧ (genFilterSQL [("owner", "? or 1=1"), ("name", "?*"), ("host", "?,?"),
        ("managed", "no"), ("port", "?")]).1
      = " owner like ? and name like ? and host in (?,?) and managed = ? and port=?" :=
  by
  have h : List.Forall₂ sameTextShape
      [("owner", "alice"), ("name", "web*"), ("host", "h1,h2"), ("managed", "true"),
        ("port", "80")]
      [("owner", "? or 1=1"), ("name", "?*"), ("host", "?,?"), ("managed", "no"),
        ("port", "?")] := by
    refine List.Forall₂.cons ⟨rfl, by decide, by decide⟩ ?_
    refine List.Forall₂.cons ⟨rfl, by decide, by decide⟩ ?_
    refine List.Forall₂.cons ⟨rfl, by decide, by decide⟩ ?_
    refine List.Forall₂.cons ⟨rfl, by decide, by decide⟩ ?_
    exact List.Forall₂.cons ⟨rfl, by decide, by decide⟩ List.Forall₂.nil
  exact ⟨(genFilterSQL_text_value_independent _ _ h).1, by decide⟩

/-! ## Visiting order of the entries -/

theorem countPlaceholders_intercalate_go (acc sep : String) (xs : List String) :
    countPlaceholders (String.intercalate.go acc sep xs)
      = countPlaceholders acc + xs.length * countPlaceholders sep
        + (xs.map countPlaceholders).sum := by
  induction xs generalizing acc with
  | nil => simp [String.intercalate.go]
  | cons x t ih =>
    simp only [String.intercalate.go, ih, countPlaceholders_append, List.length_cons,
      List.map_cons, List.sum_cons]
    ring

theorem countPlaceholders_intercalate (sep : String) (xs : List String) :
    countPlaceholders (String.intercalate sep xs)
      = (xs.length - 1) * countPlaceholders sep + (xs.map countPlaceholders).sum := by
  cases xs with
  | nil =>
    have c0 : countPlaceholders "" = 0 := by decide
    simp [String.intercalate, c0]
  | cons x t =>
    simp only [String.intercalate, countPlaceholders_intercalate_go, List.length_cons,
      List.map_cons, List.sum_cons, Nat.add_sub_cancel]
    ring

theorem perm_of_length_le_one {α : Type} (l1 l2 : List α) (h : l1.Perm l2)
    (hlen : l1.length ≤ 1) : l1 = l2 := by
  cases l1 with
  | nil => exact (List.Perm.nil_eq h)
  | cons a t =>
    cases t with
    | nil => exact List.singleton_perm.mp h
    | cons b u => simp at hlen

/-- C20, as stated, fails: the map with the entries `a: 1` and `b: 2`
compiles to a different text and a different argument list in each of its two
visiting orders. -/
theorem genFilterSQL_order_dependent :
    ([("a", "1"), ("b", "2")] : FilterMap).Perm [("b", "2"), ("a", "1")]
    ∧ FilterMap.WF [("a", "1"), ("b", "2")]
    ∧ genFilterSQL [("a", "1"), ("b", "2")] = (" a=? and b=?", [Value.str "1", Value.str "2"])
    ∧ genFilterSQL [("b", "2"), ("a", "1")] = (" b=? and a=?", [Value.str "2", Value.str "1"])
    ∧ (genFilterSQL [("a", "1"), ("b", "2")]).1 ≠ (genFilterSQL [("b", "2"), ("a", "1")]).1
    ∧ (genFilterSQL [("a", "1"), ("b", "2")]).2 ≠ (genFilterSQL [("b", "2"), ("a", "1")]).2 := by
  refine ⟨List.Perm.swap _ _ _, by decide, by decide, by decide, by decide, by decide⟩

/-- C20, amended: the text is the per-entry predicates joined with ` and` in
the order the entries are visited, and the arguments are the per-entry
arguments one after the other in the same order.
Two visiting orders of one map give the same predicates and the same
arguments up to rearrangement, hence texts with the same number of
placeholders and argument lists of the same length; the outputs are
identical when the map has at most one entry. -/
theorem genFilterSQL_perm (m1 m2 : FilterMap) (h : m1.Perm m2) :
    (genFilterSQL m1).1 = String.intercalate And (m1.map clauseText)
    ∧ (genFilterSQL m2).1 = String.intercalate And (m2.map clauseText)
    ∧ (m1.map clauseText).Perm (m2.map clauseText)
    ∧ (genFilterSQL m1).2.Perm (genFilterSQL m2).2
    ∧ countPlaceholders (genFilterSQL m1).1 = countPlaceholders (genFilterSQL m2).1
    ∧ (genFilterSQL m1).2.length = (genFilterSQL m2).2.length
    ∧ (m1.length ≤ 1 → genFilterSQL m1 = genFilterSQL m2)
    ∧ (genFilterSQL m1).2 = (m1.map clauseArgs).flatten
    ∧ (genFilterSQL m2).2 = (m2.map clauseArgs).flatten := by
  have ht : (m1.map clauseText).Perm (m2.map clauseText) := h.map clauseText
  have ha : (genFilterSQL m1).2.Perm (genFilterSQL m2).2 := by
    rw [genFilterSQL_eq_intercalate, genFilterSQL_eq_intercalate]
    exact (h.map clauseArgs).flatten
  refine ⟨by rw [genFilterSQL_eq_intercalate], by rw [genFilterSQL_eq_intercalate], ht, ha,
    ?_, ha.length_eq, ?_, by rw [genFilterSQL_eq_intercalate], by rw [genFilterSQL_eq_intercalate]⟩
  · rw [genFilterSQL_eq_intercalate, genFilterSQL_eq_intercalate]
    simp only [countPlaceholders_intercalate, List.length_map, h.length_eq,
      (ht.map countPlaceholders).sum_eq]
  · intro hlen
    rw [perm_of_length_le_one m1 m2 h hlen]

/-- C20, amended, on the two visiting orders of the map `a: 1`, `b: 2`. -/
theorem genFilterSQL_perm_witness :
    ([("a", "1"), ("b", "2")] : FilterMap).Perm [("b", "2"), ("a", "1")]
    ∧ (genFilterSQL [("a", "1"), ("b", "2")]).2.Perm (genFilterSQL [("b", "2"), ("a", "1")]).2
    ∧ countPlaceholders (genFilterSQL [("a", "1"), ("b", "2")]).1
      = countPlaceholders (genFilterSQL [("b", "2"), ("a", "1")]).1 :=
  ⟨List.Perm.swap _ _ _,
   (genFilterSQL_perm [("a", "1"), ("b", "2")] [("b", "2"), ("a", "1")]
      (List.Perm.swap _ _ _)).2.2.2.1,
   (genFilterSQL_perm [("a", "1"), ("b", "2")] [("b", "2"), ("a", "1")]
      (List.Perm.swap _ _ _)).2.2.2.2.1⟩

/-! ## The namespace compiler -/

theorem intercalate_go_append (p acc sep : String) (xs : List String) :
    String.intercalate.go (p ++ acc) sep xs = p ++ String.intercalate.go acc sep xs := by
  induction xs generalizing acc with
  | nil => simp [String.intercalate.go]
  | cons x t ih =>
    simp only [String.intercalate.go]
    rw [String.append_assoc p acc sep, String.append_assoc p (acc ++ sep) x, ih]

/-- After the first value of the key `owner`, every further value appends
` or ` and one more LIKE predicate, and its `%`-wrapped value. -/
theorem genNamespaceItem_owner_foldl (vs : List String) (acc : String) (args : List Value) :
    vs.foldl (genNamespaceItemBody OwnerAttribute) ⟨acc, args, false⟩
      = ⟨String.intercalate.go acc " or " (List.replicate vs.length "owner like ?"),
         args ++ vs.map (fun v => Value.str ("%" ++ v ++ "%")), false⟩ := by
  induction vs generalizing acc args with
  | nil => simp [String.intercalate.go]
  | cons v t ih =>
    rw [List.foldl_cons]
    have hstep : genNamespaceItemBody OwnerAttribute ⟨acc, args, false⟩ v
        = ⟨acc ++ " or " ++ "owner like ?", args ++ [Value.str ("%" ++ v ++ "%")], false⟩ := by
      simp [genNamespaceItemBody]
    rw [hstep, ih]
    simp [List.replicate_succ, String.intercalate.go]

theorem namespace_num_eq_totalValues (filter : MultiValueFilterMap) (n : Nat) :
    filter.foldl (fun n entry => n + entry.2.length) n = n + totalValues filter := by
  induction filter generalizing n with
  | nil => simp [totalValues]
  | cons e t ih =>
    rw [List.foldl_cons, ih]
    simp only [totalValues, List.map_cons, List.sum_cons]
    omega

theorem genNamespaceItem_foldl_extends (index : String) (vs : List String) (st : LoopState) :
    ∃ rest, (vs.foldl (genNamespaceItemBody index) st).str = st.str ++ rest := by
  induction vs generalizing st with
  | nil => exact ⟨"", by simp⟩
  | cons v t ih =>
    rw [List.foldl_cons]
    obtain ⟨r, hr⟩ := ih (genNamespaceItemBody index st v)
    rw [hr]
    unfold genNamespaceItemBody
    by_cases hf : st.firstIndex = false <;> by_cases ho : index = OwnerAttribute
    · exact ⟨" or " ++ "owner like ?" ++ r, by simp [hf, ho, String.append_assoc]⟩
    · exact ⟨" or " ++ (index ++ "=?") ++ r, by simp [hf, ho, String.append_assoc]⟩
    · exact ⟨"owner like ?" ++ r, by simp [hf, ho, String.append_assoc]⟩
    · exact ⟨(index ++ "=?") ++ r, by simp [hf, ho, String.append_assoc]⟩

theorem genNamespaceKeyBody_extends (st : LoopState) (entry : String × List String) :
    ∃ rest, (genNamespaceKeyBody st entry).str = st.str ++ rest := by
  unfold genNamespaceKeyBody
  simp only []
  by_cases hf : st.firstIndex = false
  · obtain ⟨r, hr⟩ := genNamespaceItem_foldl_extends entry.1 entry.2
      ⟨st.str ++ And ++ " (", st.args, true⟩
    refine ⟨And ++ " (" ++ r ++ ")", ?_⟩
    simp only [hf, if_true]
    rw [hr]
    simp [String.append_assoc]
  · obtain ⟨r, hr⟩ := genNamespaceItem_foldl_extends entry.1 entry.2
      ⟨st.str ++ " (", st.args, true⟩
    refine ⟨" (" ++ r ++ ")", ?_⟩
    simp only [hf, Bool.true_eq_false, if_false]
    rw [hr]
    simp [String.append_assoc]

theorem genNamespaceKey_foldl_extends (filter : MultiValueFilterMap) (st : LoopState) :
    ∃ rest, (filter.foldl genNamespaceKeyBody st).str = st.str ++ rest := by
  induction filter generalizing st with
  | nil => exact ⟨"", by simp⟩
  | cons e t ih =>
    rw [List.foldl_cons]
    obtain ⟨r, hr⟩ := ih (genNamespaceKeyBody st e)
    obtain ⟨r2, hr2⟩ := genNamespaceKeyBody_extends st e
    exact ⟨r2 ++ r, by rw [hr, hr2, String.append_assoc]⟩

/-- C16: for a non-empty list of values `vs` of the single key `owner` and no
Order, `genNamespaceWhereSQLAndArgs` returns the base string followed by
`where (`, one `owner like ?` per value joined by ` or `, `)` and
` limit ?, ?`, with the `%`-wrapped values in order followed by offset and
limit as arguments. -/
theorem genNamespaceWhereSQLAndArgs_owner (str : String) (vs : List String)
    (offset limit : Int) (hvs : vs ≠ []) :
    genNamespaceWhereSQLAndArgs str [("owner", vs)] none offset limit
      = (str ++ "where (" ++ String.intercalate " or " (List.replicate vs.length "owner like ?")
          ++ ")" ++ " limit ?, ?",
         vs.map (fun v => Value.str ("%" ++ v ++ "%")) ++ [Value.int offset, Value.int limit]) := by
  cases vs with
  | nil => exact absurd rfl hvs
  | cons v t =>
    have hfirst : genNamespaceItemBody "owner" ⟨str ++ "where" ++ " (", [], true⟩ v
        = ⟨str ++ "where (" ++ "owner like ?", [] ++ [Value.str ("%" ++ v ++ "%")], false⟩ := by
      have e : str ++ "where" ++ " (" = str ++ "where (" := by
        rw [String.append_assoc]
        rfl
      simp [genNamespaceItemBody, OwnerAttribute, e]
    have hrest := genNamespaceItem_owner_foldl t (str ++ "where (" ++ "owner like ?")
      ([] ++ [Value.str ("%" ++ v ++ "%")])
    rw [intercalate_go_append] at hrest
    have hnum : ¬ ((0 : Nat) + (v :: t).length ≤ 0) := by simp
    unfold genNamespaceWhereSQLAndArgs
    simp only [List.foldl_cons, List.foldl_nil, genNamespaceKeyBody, gt_iff_lt, not_le.mp hnum,
      if_true, if_false, Bool.true_eq_false, hfirst]
    rw [show ("owner" : String) = OwnerAttribute from rfl, hrest]
    simp [String.intercalate, List.replicate_succ, String.append_assoc]

/-- C16, on the values `alice` and `bob`. -/
theorem genNamespaceWhereSQLAndArgs_owner_witness :
    (["alice", "bob"] : List String) ≠ []
    ∧ genNamespaceWhereSQLAndArgs "select * from namespace " [("owner", ["alice", "bob"])]
        none 0 10
      = ("select * from namespace where (owner like ? or owner like ?) limit ?, ?",
         [Value.str "%alice%", Value.str "%bob%", Value.int 0, Value.int 10]) :=
  ⟨by decide,
   (genNamespaceWhereSQLAndArgs_owner "select * from namespace " ["alice", "bob"] 0 10
      (by decide)).trans (by decide)⟩

/-- C17: for every input, the text of `genNamespaceWhereSQLAndArgs` ends with
the optional order-by text and ` limit ?, ?`, and the argument list ends with
offset then limit; when the total number of filter values is positive the
text starts with the base string followed by `where`, and otherwise the
result is exactly the base string, the optional order-by text and
` limit ?, ?`, with the arguments offset and limit alone. -/
theorem genNamespaceWhereSQLAndArgs_limit (str : String) (filter : MultiValueFilterMap)
    (order : Option Order) (offset limit : Int) :
    (∃ front, (genNamespaceWhereSQLAndArgs str filter order offset limit).1
        = front ++ orderText order ++ " limit ?, ?")
    ∧ (∃ front, (genNamespaceWhereSQLAndArgs str filter order offset limit).2
        = front ++ [Value.int offset, Value.int limit])
    ∧ (if 0 < totalValues filter then
        ∃ rest, (genNamespaceWhereSQLAndArgs str filter order offset limit).1
          = str ++ "where" ++ rest
      else
        genNamespaceWhereSQLAndArgs str filter order offset limit
          = (str ++ orderText order ++ " limit ?, ?", [Value.int offset, Value.int limit])) := by
  have hnum := namespace_num_eq_totalValues filter 0
  rw [Nat.zero_add] at hnum
  have horder : ∀ s : String,
      (match order with
        | some o => s ++ (" order by " ++ o.Filed ++ " " ++ o.Sequence)
        | none => s) = s ++ orderText order := by
    intro s
    cases order <;> simp [orderText]
  unfold genNamespaceWhereSQLAndArgs
  simp only [hnum, horder, gt_iff_lt]
  refine ⟨⟨_, rfl⟩, ⟨_, rfl⟩, ?_⟩
  by_cases hpos : 0 < totalValues filter
  · simp only [hpos, if_true]
    obtain ⟨r, hr⟩ := genNamespaceKey_foldl_extends filter ⟨str ++ "where", [], true⟩
    exact ⟨r ++ orderText order ++ " limit ?, ?", by rw [hr]; simp [String.append_assoc]⟩
  · simp only [hpos, if_false, List.nil_append]

/-! ## Joining the predicates of several entries -/

end Polaris
